import Mathlib

/-!
Shallow embedding of the core image-to-text pipeline of the
`ascii-art-generator` repository (files `src/lib/dithering.ts` and
`src/lib/ascii-converter.ts`), together with theorems settling the
specification claims about it.

Modelling conventions:
* A JS `Uint8ClampedArray` is modelled as a `List ℕ` whose entries are
  produced by `toUint8Clamp` (the ECMAScript `ToUint8Clamp` conversion:
  clamp to `[0, 255]`, round to nearest, ties to even).  Reading a typed
  array is `List.getD _ _ 0`; an out-of-range write on a typed array is
  ignored, exactly like `List.set` out of range.
* Plain JS numbers are idealised as `ℚ` (the numbers appearing in the
  claims are exactly representable, so the idealisation is faithful there).
  The two places where the code can produce `Infinity`/`NaN` (the colored
  path's brightness ratio) are modelled explicitly with the
  `BrightnessFactor` and `Chan` types below.
* `Math.random()` inside the blue-noise generator is modelled by an
  explicit random stream `rand : ℕ → ℚ` threaded through `applyDithering`.
-/

/-- ECMAScript `ToUint8Clamp`: clamp a number to `[0,255]` and round to the
nearest integer, ties going to the even integer.  This is what storing a
number into a `Uint8ClampedArray` does. -/
def toUint8Clamp (q : ℚ) : ℕ :=
  if q ≤ 0 then 0
  else if 255 ≤ q then 255
  else if q - ⌊q⌋ < 1/2 then ⌊q⌋.toNat
  else if 1/2 < q - ⌊q⌋ then ⌊q⌋.toNat + 1
  else if ⌊q⌋.toNat % 2 = 0 then ⌊q⌋.toNat else ⌊q⌋.toNat + 1

/-- Write `v` (a JS number) into a byte buffer at index `i`:
`buf[i] = v` on a `Uint8ClampedArray`. -/
def jsWrite (buf : List ℕ) (i : ℕ) (v : ℚ) : List ℕ :=
  buf.set i (toUint8Clamp v)

/-- `buf[i] += e` on a `Uint8ClampedArray`. -/
def jsAdd (buf : List ℕ) (i : ℕ) (e : ℚ) : List ℕ :=
  buf.set i (toUint8Clamp ((buf.getD i 0 : ℚ) + e))

/-- The `ImageData` interface of `ascii-converter.ts`: a flat RGBA byte
buffer plus its dimensions. -/
structure ImageDataC where
  data : List ℕ
  width : ℕ
  height : ℕ
deriving DecidableEq

/-- The `DitheringOptions` interface of `dithering.ts`.  The algorithm is a
string at the JS runtime level (the TS union type is erased), which is what
lets us state the unknown-algorithm claims. -/
structure DitheringOptionsC where
  algorithm : String
  strength : ℚ
deriving DecidableEq

/-! ## Error-diffusion family (`errorDiffusionDither` and friends) -/

/-- One `[dx, dy, weight]` tap of `errorDiffusionDither`'s kernel loop:
mirror `dx` on right-to-left rows, skip out-of-bounds offsets, otherwise
`newData[ni] = Math.max(0, Math.min(255, newData[ni] + error * weight))`. -/
def diffuseTap (w h : ℕ) (x y : ℕ) (isRightToLeft : Bool) (error : ℚ)
    (channel : ℕ) (buf : List ℕ) (tap : ℤ × ℤ × ℚ) : List ℕ :=
  let nx : ℤ := (x : ℤ) + (if isRightToLeft then -tap.1 else tap.1)
  let ny : ℤ := (y : ℤ) + tap.2.1
  if 0 ≤ nx ∧ nx < (w : ℤ) ∧ 0 ≤ ny ∧ ny < (h : ℤ) then
    let ni := (ny.toNat * w + nx.toNat) * 4 + channel
    jsWrite buf ni (max 0 (min 255 ((buf.getD ni 0 : ℚ) + error * tap.2.2)))
  else buf

/-- The per-channel body of `errorDiffusionDither`: quantize by the midpoint
rule, write the quantized value back, then run the kernel taps. -/
def edChannel (strength : ℚ) (kernel : List (ℤ × ℤ × ℚ)) (w h : ℕ)
    (isRightToLeft : Bool) (x y : ℕ) (buf : List ℕ) (channel : ℕ) : List ℕ :=
  let index := (y * w + x) * 4
  let oldPixel := buf.getD (index + channel) 0
  let newPixel : ℕ := if oldPixel < 128 then 0 else 255
  let error : ℚ := ((oldPixel : ℚ) - (newPixel : ℚ)) * strength
  let buf1 := buf.set (index + channel) newPixel
  kernel.foldl (diffuseTap w h x y isRightToLeft error channel) buf1

/-- Process the three color channels of one pixel in order. -/
def edPixel (strength : ℚ) (kernel : List (ℤ × ℤ × ℚ)) (w h : ℕ)
    (isRightToLeft : Bool) (buf : List ℕ) (x y : ℕ) : List ℕ :=
  (List.range 3).foldl (edChannel strength kernel w h isRightToLeft x y) buf

/-- One row of `errorDiffusionDither`'s scan: left-to-right, or right-to-left
on odd serpentine rows. -/
def edRow (strength : ℚ) (kernel : List (ℤ × ℤ × ℚ)) (w h : ℕ)
    (serpentine : Bool) (buf : List ℕ) (y : ℕ) : List ℕ :=
  let isRightToLeft := serpentine && y % 2 == 1
  let xs := if isRightToLeft then (List.range w).reverse else List.range w
  xs.foldl (fun b x => edPixel strength kernel w h isRightToLeft b x y) buf

/-- `errorDiffusionDither` of `dithering.ts`: generic error diffusion over a
custom kernel, optionally with serpentine scanning. -/
def errorDiffusionDither (imageData : ImageDataC) (strength : ℚ)
    (kernel : List (ℤ × ℤ × ℚ)) (serpentine : Bool) : ImageDataC :=
  ⟨(List.range imageData.height).foldl
      (edRow strength kernel imageData.width imageData.height serpentine)
      imageData.data,
   imageData.width, imageData.height⟩

/-- The Floyd-Steinberg kernel exactly as written in the source.  Note the
first tap: the source has `[0, 0, 7/16]`, i.e. offset `(dx, dy) = (0, 0)`
(the current pixel itself), not the textbook `(1, 0)`. -/
def floydSteinbergKernel : List (ℤ × ℤ × ℚ) :=
  [(0, 0, 7/16), (-1, 1, 3/16), (0, 1, 5/16), (1, 1, 1/16)]

/-- `floydSteinbergDither` (standard left-to-right scan). -/
def floydSteinbergDither (imageData : ImageDataC) (strength : ℚ) : ImageDataC :=
  errorDiffusionDither imageData strength floydSteinbergKernel false

/-- `floydSteinbergSerpentineDither` (serpentine scan, same kernel). -/
def floydSteinbergSerpentineDither (imageData : ImageDataC) (strength : ℚ) :
    ImageDataC :=
  errorDiffusionDither imageData strength floydSteinbergKernel true

/-- `jarvisJudiceNinkeDither`. -/
def jarvisJudiceNinkeDither (imageData : ImageDataC) (strength : ℚ) : ImageDataC :=
  errorDiffusionDither imageData strength
    [(1, 0, 7/48), (2, 0, 5/48),
     (-2, 1, 3/48), (-1, 1, 5/48), (0, 1, 7/48), (1, 1, 5/48), (2, 1, 3/48),
     (-2, 2, 1/48), (-1, 2, 3/48), (0, 2, 5/48), (1, 2, 3/48), (2, 2, 1/48)]
    false

/-- `stuckiDither`. -/
def stuckiDither (imageData : ImageDataC) (strength : ℚ) : ImageDataC :=
  errorDiffusionDither imageData strength
    [(1, 0, 8/42), (2, 0, 4/42),
     (-2, 1, 2/42), (-1, 1, 4/42), (0, 1, 8/42), (1, 1, 4/42), (2, 1, 2/42),
     (-2, 2, 1/42), (-1, 2, 2/42), (0, 2, 4/42), (1, 2, 2/42), (2, 2, 1/42)]
    false

/-! ## Atkinson / Burkes / Sierra / Sierra Lite -/

/-- The per-channel body of `atkinsonDither` (its `+=` writes carry no
explicit clamp in the source; the typed array clamps and rounds anyway). -/
def atkinsonChannel (strength : ℚ) (w h : ℕ) (x y : ℕ) (buf : List ℕ)
    (channel : ℕ) : List ℕ :=
  let index := (y * w + x) * 4
  let oldPixel := buf.getD (index + channel) 0
  let newPixel : ℕ := if oldPixel < 128 then 0 else 255
  let error : ℚ := ((oldPixel : ℚ) - (newPixel : ℚ)) * strength
  let b0 := buf.set (index + channel) newPixel
  let errorFraction := error / 8
  let b1 := if x + 1 < w then jsAdd b0 ((y * w + (x+1)) * 4 + channel) errorFraction else b0
  let b2 := if x + 2 < w then jsAdd b1 ((y * w + (x+2)) * 4 + channel) errorFraction else b1
  let b3 :=
    if y + 1 < h then
      let c1 := if 1 ≤ x then jsAdd b2 (((y+1) * w + (x-1)) * 4 + channel) errorFraction else b2
      let c2 := jsAdd c1 (((y+1) * w + x) * 4 + channel) errorFraction
      if x + 1 < w then jsAdd c2 (((y+1) * w + (x+1)) * 4 + channel) errorFraction else c2
    else b2
  if y + 2 < h then jsAdd b3 (((y+2) * w + x) * 4 + channel) errorFraction else b3

/-- `atkinsonDither`. -/
def atkinsonDither (imageData : ImageDataC) (strength : ℚ) : ImageDataC :=
  ⟨(List.range imageData.height).foldl (fun b y =>
      (List.range imageData.width).foldl (fun b2 x =>
        (List.range 3).foldl (atkinsonChannel strength imageData.width imageData.height x y) b2) b)
    imageData.data, imageData.width, imageData.height⟩

/-- The per-channel body of `burkesDither`. -/
def burkesChannel (strength : ℚ) (w h : ℕ) (x y : ℕ) (buf : List ℕ)
    (channel : ℕ) : List ℕ :=
  let index := (y * w + x) * 4
  let oldPixel := buf.getD (index + channel) 0
  let newPixel : ℕ := if oldPixel < 128 then 0 else 255
  let error : ℚ := ((oldPixel : ℚ) - (newPixel : ℚ)) * strength
  let b0 := buf.set (index + channel) newPixel
  let b1 := if x + 1 < w then jsAdd b0 ((y * w + (x+1)) * 4 + channel) (error * (8/32)) else b0
  let b2 := if x + 2 < w then jsAdd b1 ((y * w + (x+2)) * 4 + channel) (error * (4/32)) else b1
  if y + 1 < h then
    let c1 := if 2 ≤ x then jsAdd b2 (((y+1) * w + (x-2)) * 4 + channel) (error * (2/32)) else b2
    let c2 := if 1 ≤ x then jsAdd c1 (((y+1) * w + (x-1)) * 4 + channel) (error * (4/32)) else c1
    let c3 := jsAdd c2 (((y+1) * w + x) * 4 + channel) (error * (8/32))
    let c4 := if x + 1 < w then jsAdd c3 (((y+1) * w + (x+1)) * 4 + channel) (error * (4/32)) else c3
    if x + 2 < w then jsAdd c4 (((y+1) * w + (x+2)) * 4 + channel) (error * (2/32)) else c4
  else b2

/-- `burkesDither`. -/
def burkesDither (imageData : ImageDataC) (strength : ℚ) : ImageDataC :=
  ⟨(List.range imageData.height).foldl (fun b y =>
      (List.range imageData.width).foldl (fun b2 x =>
        (List.range 3).foldl (burkesChannel strength imageData.width imageData.height x y) b2) b)
    imageData.data, imageData.width, imageData.height⟩

/-- The per-channel body of `sierraDither`. -/
def sierraChannel (strength : ℚ) (w h : ℕ) (x y : ℕ) (buf : List ℕ)
    (channel : ℕ) : List ℕ :=
  let index := (y * w + x) * 4
  let oldPixel := buf.getD (index + channel) 0
  let newPixel : ℕ := if oldPixel < 128 then 0 else 255
  let error : ℚ := ((oldPixel : ℚ) - (newPixel : ℚ)) * strength
  let b0 := buf.set (index + channel) newPixel
  let b1 := if x + 1 < w then jsAdd b0 ((y * w + (x+1)) * 4 + channel) (error * (5/32)) else b0
  let b2 := if x + 2 < w then jsAdd b1 ((y * w + (x+2)) * 4 + channel) (error * (3/32)) else b1
  let b3 :=
    if y + 1 < h then
      let c1 := if 2 ≤ x then jsAdd b2 (((y+1) * w + (x-2)) * 4 + channel) (error * (2/32)) else b2
      let c2 := if 1 ≤ x then jsAdd c1 (((y+1) * w + (x-1)) * 4 + channel) (error * (4/32)) else c1
      let c3 := jsAdd c2 (((y+1) * w + x) * 4 + channel) (error * (5/32))
      let c4 := if x + 1 < w then jsAdd c3 (((y+1) * w + (x+1)) * 4 + channel) (error * (4/32)) else c3
      if x + 2 < w then jsAdd c4 (((y+1) * w + (x+2)) * 4 + channel) (error * (2/32)) else c4
    else b2
  if y + 2 < h then
    let d1 := if 1 ≤ x then jsAdd b3 (((y+2) * w + (x-1)) * 4 + channel) (error * (2/32)) else b3
    let d2 := jsAdd d1 (((y+2) * w + x) * 4 + channel) (error * (3/32))
    if x + 1 < w then jsAdd d2 (((y+2) * w + (x+1)) * 4 + channel) (error * (2/32)) else d2
  else b3

/-- `sierraDither`. -/
def sierraDither (imageData : ImageDataC) (strength : ℚ) : ImageDataC :=
  ⟨(List.range imageData.height).foldl (fun b y =>
      (List.range imageData.width).foldl (fun b2 x =>
        (List.range 3).foldl (sierraChannel strength imageData.width imageData.height x y) b2) b)
    imageData.data, imageData.width, imageData.height⟩

/-- The per-channel body of `sierraLiteDither`. -/
def sierraLiteChannel (strength : ℚ) (w h : ℕ) (x y : ℕ) (buf : List ℕ)
    (channel : ℕ) : List ℕ :=
  let index := (y * w + x) * 4
  let oldPixel := buf.getD (index + channel) 0
  let newPixel : ℕ := if oldPixel < 128 then 0 else 255
  let error : ℚ := ((oldPixel : ℚ) - (newPixel : ℚ)) * strength
  let b0 := buf.set (index + channel) newPixel
  let b1 := if x + 1 < w then jsAdd b0 ((y * w + (x+1)) * 4 + channel) (error * (2/4)) else b0
  if y + 1 < h then
    let c1 := if 1 ≤ x then jsAdd b1 (((y+1) * w + (x-1)) * 4 + channel) (error * (1/4)) else b1
    jsAdd c1 (((y+1) * w + x) * 4 + channel) (error * (1/4))
  else b1

/-- `sierraLiteDither`. -/
def sierraLiteDither (imageData : ImageDataC) (strength : ℚ) : ImageDataC :=
  ⟨(List.range imageData.height).foldl (fun b y =>
      (List.range imageData.width).foldl (fun b2 x =>
        (List.range 3).foldl (sierraLiteChannel strength imageData.width imageData.height x y) b2) b)
    imageData.data, imageData.width, imageData.height⟩

/-! ## Ordered dithering -/

/-- `ORDERED_2X2`. -/
def ORDERED_2X2 : List (List ℕ) := [[0, 2], [3, 1]]

/-- `ORDERED_4X4`. -/
def ORDERED_4X4 : List (List ℕ) :=
  [[0, 8, 2, 10], [12, 4, 14, 6], [3, 11, 1, 9], [15, 7, 13, 5]]

/-- `ORDERED_8X8`. -/
def ORDERED_8X8 : List (List ℕ) :=
  [[0, 32, 8, 40, 2, 34, 10, 42],
   [48, 16, 56, 24, 50, 18, 58, 26],
   [12, 44, 4, 36, 14, 46, 6, 38],
   [60, 28, 52, 20, 62, 30, 54, 22],
   [3, 35, 11, 43, 1, 33, 9, 41],
   [51, 19, 59, 27, 49, 17, 57, 25],
   [15, 47, 7, 39, 13, 45, 5, 37],
   [63, 31, 55, 23, 61, 29, 53, 21]]

/-- The per-pixel threshold of `orderedDither`:
`(matrix[y % matrixSize][x % matrixSize] / maxValue) * 255 * strength`. -/
def orderedThreshold (matrix : List (List ℕ)) (strength : ℚ) (x y : ℕ) : ℚ :=
  let matrixSize := matrix.length
  let maxValue : ℚ := ((matrixSize * matrixSize - 1 : ℕ) : ℚ)
  (((matrix.getD (y % matrixSize) []).getD (x % matrixSize) 0 : ℚ) / maxValue) * 255 * strength

/-- The per-pixel body of `orderedDither`: threshold each of the three color
channels against the matrix value for this position. -/
def orderedProcessPixel (matrix : List (List ℕ)) (strength : ℚ) (w : ℕ)
    (buf : List ℕ) (x y : ℕ) : List ℕ :=
  let index := (y * w + x) * 4
  let threshold := orderedThreshold matrix strength x y
  (List.range 3).foldl (fun b channel =>
    b.set (index + channel)
      (if threshold < (b.getD (index + channel) 0 : ℚ) then 255 else 0)) buf

/-- `orderedDither` of `dithering.ts`. -/
def orderedDither (imageData : ImageDataC) (matrix : List (List ℕ))
    (strength : ℚ) : ImageDataC :=
  ⟨(List.range imageData.height).foldl (fun b y =>
      (List.range imageData.width).foldl
        (fun b2 x => orderedProcessPixel matrix strength imageData.width b2 x y) b)
    imageData.data, imageData.width, imageData.height⟩

/-! ## Blue noise -/

/-- Read `m[y][x]` from a JS `number[][]`. -/
def get2d (m : List (List ℚ)) (y x : ℕ) : ℚ := (m.getD y []).getD x 0

/-- Write `m[y][x]` in a JS `number[][]`. -/
def set2d (m : List (List ℚ)) (y x : ℕ) (v : ℚ) : List (List ℚ) :=
  m.set y ((m.getD y []).set x v)

/-- The eight neighbor offsets `(dx, dy)` visited by the void-and-cluster
energy sum (the `dx = dy = 0` case is `continue`d over in the source). -/
def neighborOffsets : List (ℤ × ℤ) :=
  [(-1, -1), (0, -1), (1, -1), (-1, 0), (1, 0), (-1, 1), (0, 1), (1, 1)]

/-- `generateBlueNoiseMap`: random initial field, then 10 refinement
iterations, each locating the interior cell with the maximal 8-neighbor
energy sum (first strict maximum wins, starting from `-Infinity`) and
halving it.  `Math.random()` is modelled by the explicit stream `rand`
(read in the source's row-major initialisation order). -/
def generateBlueNoiseMap (width height : ℕ) (rand : ℕ → ℚ) : List (List ℚ) :=
  let init := (List.range height).map fun y =>
    (List.range width).map fun x => rand (y * width + x)
  (List.range 10).foldl (fun m _ =>
    let interior : List (ℕ × ℕ) :=
      ((List.range (height - 2)).map (· + 1)).flatMap fun y =>
        ((List.range (width - 2)).map (· + 1)).map fun x => (y, x)
    let best := interior.foldl (fun acc yx =>
      let energy := neighborOffsets.foldl (fun e od =>
        e + get2d m ((yx.1 : ℤ) + od.2).toNat ((yx.2 : ℤ) + od.1).toNat) 0
      match acc with
      | none => some (energy, yx.2, yx.1)
      | some (maxEnergy, vx, vy) =>
          if maxEnergy < energy then some (energy, yx.2, yx.1)
          else some (maxEnergy, vx, vy)) none
    match best with
    | none => set2d m 0 0 (get2d m 0 0 * (1/2))
    | some (_, voidX, voidY) => set2d m voidY voidX (get2d m voidY voidX * (1/2))) init

/-- `blueNoiseDither`: threshold against the generated noise map. -/
def blueNoiseDither (imageData : ImageDataC) (strength : ℚ) (rand : ℕ → ℚ) :
    ImageDataC :=
  let noiseMap := generateBlueNoiseMap imageData.width imageData.height rand
  ⟨(List.range imageData.height).foldl (fun b y =>
      (List.range imageData.width).foldl (fun b2 x =>
        let index := (y * imageData.width + x) * 4
        let threshold := get2d noiseMap y x * 255 * strength
        (List.range 3).foldl (fun b3 channel =>
          b3.set (index + channel)
            (if threshold < (b3.getD (index + channel) 0 : ℚ) then 255 else 0)) b2) b)
    imageData.data, imageData.width, imageData.height⟩

/-! ## Adaptive hybrid -/

/-- `calculateLocalContrast`: maximal absolute difference between the mean
brightness of the pixel and of its in-bounds 8-neighbors, normalised. -/
def calculateLocalContrast (data : List ℕ) (x y w h : ℕ) : ℚ :=
  let index := (y * w + x) * 4
  let centerBrightness : ℚ :=
    ((data.getD index 0 : ℚ) + (data.getD (index+1) 0 : ℚ) + (data.getD (index+2) 0 : ℚ)) / 3
  (neighborOffsets.foldl (fun maxDiff od =>
    let nx : ℤ := (x : ℤ) + od.1
    let ny : ℤ := (y : ℤ) + od.2
    if 0 ≤ nx ∧ nx < (w : ℤ) ∧ 0 ≤ ny ∧ ny < (h : ℤ) then
      let ni := (ny.toNat * w + nx.toNat) * 4
      let neighborBrightness : ℚ :=
        ((data.getD ni 0 : ℚ) + (data.getD (ni+1) 0 : ℚ) + (data.getD (ni+2) 0 : ℚ)) / 3
      max maxDiff |centerBrightness - neighborBrightness|
    else maxDiff) 0) / 255

/-- The per-channel body of `adaptiveHybridDither`: branch on the
precomputed local contrast (computed from the original, undithered data).
The final write stores `Math.max(0, Math.min(255, newPixel))`; `newPixel`
is always `0` or `255`, so the clamp is the identity and the write is kept
as a plain `set`. -/
def adaptiveChannel (strength : ℚ) (w h : ℕ) (contrast : ℚ) (x y : ℕ)
    (buf : List ℕ) (channel : ℕ) : List ℕ :=
  let index := (y * w + x) * 4
  let oldPixel := buf.getD (index + channel) 0
  if 3/10 < contrast then
    buf.set (index + channel) (if oldPixel < 128 then 0 else 255)
  else if 1/10 < contrast then
    let newPixel : ℕ := if oldPixel < 128 then 0 else 255
    let error : ℚ := ((oldPixel : ℚ) - (newPixel : ℚ)) * strength * (7/10)
    let b1 := if x + 1 < w then jsAdd buf ((y * w + (x+1)) * 4 + channel) (error * (2/5)) else buf
    let b2 := if y + 1 < h ∧ 0 < x then jsAdd b1 (((y+1) * w + (x-1)) * 4 + channel) (error * (1/5)) else b1
    let b3 := if y + 1 < h then jsAdd b2 (((y+1) * w + x) * 4 + channel) (error * (3/10)) else b2
    b3.set (index + channel) newPixel
  else
    let threshold : ℚ := (((x % 4) * 4 + (y % 4) : ℕ) : ℚ) / 16 * 255 * strength
    buf.set (index + channel) (if threshold < (oldPixel : ℚ) then 255 else 0)

/-- `adaptiveHybridDither`. -/
def adaptiveHybridDither (imageData : ImageDataC) (strength : ℚ) : ImageDataC :=
  let w := imageData.width
  let h := imageData.height
  ⟨(List.range h).foldl (fun b y =>
      (List.range w).foldl (fun b2 x =>
        (List.range 3).foldl
          (adaptiveChannel strength w h (calculateLocalContrast imageData.data x y w h) x y) b2) b)
    imageData.data, w, h⟩

/-! ## Dispatch (`applyDithering`) -/

/-- The closed set of algorithm names of the `DitheringAlgorithm` union. -/
def knownAlgorithms : List String :=
  ["none", "floyd-steinberg", "floyd-steinberg-serpentine", "jarvis-judice-ninke",
   "atkinson", "stucki", "burkes", "sierra", "sierra-lite",
   "ordered-2x2", "ordered-4x4", "ordered-8x8", "blue-noise", "adaptive-hybrid"]

/-- `applyDithering` of `dithering.ts`: the `none`/zero-strength short
circuit, then the `switch` over the algorithm tag; the `default` branch
returns the input.  `rand` feeds the blue-noise generator. -/
def applyDithering (imageData : ImageDataC) (options : DitheringOptionsC)
    (rand : ℕ → ℚ) : ImageDataC :=
  if options.algorithm = "none" ∨ options.strength = 0 then imageData
  else if options.algorithm = "floyd-steinberg" then
    floydSteinbergDither imageData options.strength
  else if options.algorithm = "floyd-steinberg-serpentine" then
    floydSteinbergSerpentineDither imageData options.strength
  else if options.algorithm = "jarvis-judice-ninke" then
    jarvisJudiceNinkeDither imageData options.strength
  else if options.algorithm = "stucki" then
    stuckiDither imageData options.strength
  else if options.algorithm = "atkinson" then
    atkinsonDither imageData options.strength
  else if options.algorithm = "burkes" then
    burkesDither imageData options.strength
  else if options.algorithm = "sierra" then
    sierraDither imageData options.strength
  else if options.algorithm = "sierra-lite" then
    sierraLiteDither imageData options.strength
  else if options.algorithm = "ordered-2x2" then
    orderedDither imageData ORDERED_2X2 options.strength
  else if options.algorithm = "ordered-4x4" then
    orderedDither imageData ORDERED_4X4 options.strength
  else if options.algorithm = "ordered-8x8" then
    orderedDither imageData ORDERED_8X8 options.strength
  else if options.algorithm = "blue-noise" then
    blueNoiseDither imageData options.strength rand
  else if options.algorithm = "adaptive-hybrid" then
    adaptiveHybridDither imageData options.strength
  else imageData

/-! ## `ascii-converter.ts`: data model -/

/-- The `ASCII_SETS` table, as a key-to-ramp lookup.  At the JS runtime an
unknown key yields `undefined`, modelled by `none`.  (Characters that the
syntax of this development cannot carry literally are written with `\xNN`
escapes; the strings are byte-for-byte the source literals.) -/
def ASCII_SETS (key : String) : Option String :=
  if key = "minimal" then some " .:-=+*#%@"
  else if key = "smooth" then
    some " .\x27\x60^\x22,:;Il!i~+_-?][\x7d\x7b1)(|\\/tfjrxnuvczXYUJCLQ0OZmwqpdbkhao*#MW&8%B@$"
  else if key = "classic" then some " .,:;ox%#@"
  else if key = "dense" then
    some " \x60.-\x27:_,^=;><+!rc*/z?sLTv)J7(|Fi\x7b\x7dC3tlf1unxzjY5V2wqkoahd0ep9gy6Pb4km8RDZXUBO#MW&8%B@$"
  else if key = "blocks" then some " ░▒▓█"
  else if key = "ansi-safe" then some " .:-=#@"
  else if key = "ansi-half" then some " ▄█"
  else if key = "ansi-simple" then some " ▒█"
  else if key = "ansi-classic" then some " .▒▓█"
  else if key = "ansi-minimal" then some " █"
  else none

/-- The keys of `ASCII_SETS` (the `AsciiSetKey` union). -/
def knownRampKeys : List String :=
  ["minimal", "smooth", "classic", "dense", "blocks", "ansi-safe",
   "ansi-half", "ansi-simple", "ansi-classic", "ansi-minimal"]

/-- `ANSI_16_COLORS` as a list of RGB triples. -/
def ANSI_16_COLORS : List (ℕ × ℕ × ℕ) :=
  [(0, 0, 0), (128, 0, 0), (0, 128, 0), (128, 128, 0),
   (0, 0, 128), (128, 0, 128), (0, 128, 128), (192, 192, 192),
   (128, 128, 128), (255, 0, 0), (0, 255, 0), (255, 255, 0),
   (0, 0, 255), (255, 0, 255), (0, 255, 255), (255, 255, 255)]

/-- `generateAnsi256Palette`: the 16 ANSI colors, the 6x6x6 cube, then the
24-step grayscale ramp. -/
def generateAnsi256Palette : List (ℕ × ℕ × ℕ) :=
  ANSI_16_COLORS ++
  ((List.range 6).flatMap fun r => (List.range 6).flatMap fun g =>
    (List.range 6).map fun b =>
      (if r = 0 then 0 else 55 + r * 40,
       if g = 0 then 0 else 55 + g * 40,
       if b = 0 then 0 else 55 + b * 40)) ++
  ((List.range 24).map fun i => (8 + i * 10, 8 + i * 10, 8 + i * 10))

/-- The `AnsiPixel` interface.  `char` is `Option Char` because the JS value
can be `undefined` (string indexing out of range); `rgb` carries the
possibly-`NaN` channel values of the colored path (see `Chan`). -/
inductive Chan
  | val (q : ℚ)
  | nan
deriving DecidableEq

/-- The colored-output cell: glyph, optional foreground/background palette
indices and the raw (rescaled) RGB triple. -/
structure AnsiPixelC where
  char : Option Char
  fgColor : Option ℕ
  bgColor : Option ℕ
  rgb : Option (Chan × Chan × Chan)
deriving DecidableEq

/-! ## `ascii-converter.ts`: per-pixel functions -/

/-- JS string indexing `s[i]`: `undefined` when out of range. -/
def stringAt (s : String) (i : ℤ) : Option Char :=
  if i < 0 then none else s.data.get? i.toNat

/-- The ramp index computed by `brightnessToAscii`:
`Math.floor((normalizedBrightness / 255) * (asciiSet.length - 1))`. -/
def brightnessIndex (normalizedBrightness : ℚ) (rampLength : ℕ) : ℤ :=
  ⌊(normalizedBrightness / 255) * ((rampLength : ℚ) - 1)⌋

/-- `brightnessToAscii`: clamp the brightness into `[0, 255]`, invert it for
black-on-white display, and index the ramp. -/
def brightnessToAscii (brightness : ℚ) (asciiSet : String)
    (invertBrightness : Bool) : Option Char :=
  let clamped := max 0 (min 255 brightness)
  let normalizedBrightness := if invertBrightness then 255 - clamped else clamped
  stringAt asciiSet (brightnessIndex normalizedBrightness asciiSet.length)

/-- `getPixelBrightness`: the rounded luminance `0.299 R + 0.587 G + 0.114 B`
(`Math.round` rounds half toward positive infinity, as does `round`). -/
def getPixelBrightness (r g b : ℚ) : ℚ :=
  ((round ((299/1000) * r + (587/1000) * g + (114/1000) * b) : ℤ) : ℚ)

/-- The squared Euclidean RGB distance of `findClosestAnsiColor`.  The
source compares `Math.sqrt` of this quantity; the square root is strictly
monotone on nonnegative numbers, so every comparison made by the loop has
the same outcome on the squares, and the loop below is stated on them. -/
def colorDistanceSq (r g b : ℚ) (p : ℕ × ℕ × ℕ) : ℚ :=
  (r - (p.1 : ℚ))^2 + (g - (p.2.1 : ℚ))^2 + (b - (p.2.2 : ℚ))^2

/-- The scan loop of `findClosestAnsiColor`: `minDistance` starts at
`Infinity` (modelled by `none`) and is replaced on strict improvement, so
the first index attaining the minimum wins. -/
def closestLoop (r g b : ℚ) :
    List (ℕ × ℕ × ℕ) → ℕ → Option ℚ → ℕ → Option ℚ × ℕ
  | [], _, best, bestIndex => (best, bestIndex)
  | p :: rest, i, none, _ =>
      closestLoop r g b rest (i + 1) (some (colorDistanceSq r g b p)) i
  | p :: rest, i, some m, bestIndex =>
      let d := colorDistanceSq r g b p
      if d < m then closestLoop r g b rest (i + 1) (some d) i
      else closestLoop r g b rest (i + 1) (some m) bestIndex

/-- `findClosestAnsiColor`. -/
def findClosestAnsiColor (r g b : ℚ) (palette : List (ℕ × ℕ × ℕ)) : ℕ :=
  (closestLoop r g b palette 0 none 0).2

/-- `rgbToAnsiPixel` on plain (non-`NaN`) channel values. -/
def rgbToAnsiPixel (r g b : ℚ) (asciiChars : String) (useColors : Bool)
    (colorPalette : String) (invertBrightness : Bool) : AnsiPixelC :=
  let brightness := getPixelBrightness r g b
  let char := brightnessToAscii brightness asciiChars invertBrightness
  if !useColors then ⟨char, none, none, none⟩
  else
    let palette := if colorPalette = "ansi-16" then ANSI_16_COLORS else generateAnsi256Palette
    let colorIndex := findClosestAnsiColor r g b palette
    let avgColor := (r + g + b) / 3
    if avgColor < 128 then
      ⟨if char = some ' ' then some ' ' else some '▓',
       some 0, some colorIndex, some (.val r, .val g, .val b)⟩
    else
      ⟨char, some colorIndex, none, some (.val r, .val g, .val b)⟩

/-- `adjustBrightness`: contrast about the midpoint, then brightness offset,
then clamp. -/
def adjustBrightness (value contrast brightness : ℚ) : ℚ :=
  max 0 (min 255 ((value - 128) * contrast + 128 + brightness))

/-- The value of `adjustedBrightness / avgBrightness || 1` in the colored
path of `convertToAscii`.  In JS, with both operands nonnegative:
`0 / 0` is `NaN` and `x / 0` is `+Infinity` for `x > 0`; `NaN` and `0` are
falsy, so `|| 1` turns them into `1`, while `+Infinity` is truthy and is
kept. -/
inductive BrightnessFactor
  | fin (q : ℚ)
  | inf
deriving DecidableEq

/-- `adjustedBrightness / avgBrightness || 1` (for nonnegative operands). -/
def brightnessFactor (adjusted avg : ℚ) : BrightnessFactor :=
  if avg = 0 then (if adjusted = 0 then .fin 1 else .inf)
  else if adjusted = 0 then .fin 1
  else .fin (adjusted / avg)

/-- `Math.max(0, Math.min(255, ch * factor))` with JS semantics:
`0 * Infinity` is `NaN` and `Math.min`/`Math.max` propagate `NaN`. -/
def rescaleChannel (ch : ℚ) (f : BrightnessFactor) : Chan :=
  match f with
  | .fin q => .val (max 0 (min 255 (ch * q)))
  | .inf => if ch = 0 then .nan else if 0 < ch then .val 255 else .val 0

/-- `rgbToAnsiPixel` as called from the colored path, on possibly-`NaN`
channels.  When any channel is `NaN`, the JS computation gives: luminance
`NaN`, ramp index `NaN`, so `char` is `undefined`; every palette distance is
`NaN`, so no `distance < minDistance` test fires and `closestIndex` stays
`0`; `avgColor` is `NaN`, so `avgColor < 128` is false and the bright branch
is taken.  The resulting cell is spelled out below. -/
def rgbToAnsiPixelJS (r g b : Chan) (asciiChars : String)
    (colorPalette : String) (invertBrightness : Bool) : AnsiPixelC :=
  match r, g, b with
  | .val rv, .val gv, .val bv =>
      rgbToAnsiPixel rv gv bv asciiChars true colorPalette invertBrightness
  | rv, gv, bv => ⟨none, some 0, none, some (rv, gv, bv)⟩

/-! ## `ascii-converter.ts`: geometry -/

/-- `resizeImageData` (nearest neighbor).  The source loop writes every
destination index `(y * targetWidth + x) * 4 + c` exactly once, reading only
the unmodified source buffer, so the construction is written directly
index-by-index: destination index `i` decodes to pixel
`(x, y) = ((i / 4) % targetWidth, (i / 4) / targetWidth)` and channel
`i % 4`, and copies the source byte at
`(floor(y * height / targetHeight) * width + floor(x * width / targetWidth)) * 4 + c`
(an out-of-range typed-array read stores as 0). -/
def resizeImageData (imageData : ImageDataC) (targetWidth targetHeight : ℕ) :
    ImageDataC :=
  let scaleX : ℚ := (imageData.width : ℚ) / (targetWidth : ℚ)
  let scaleY : ℚ := (imageData.height : ℚ) / (targetHeight : ℚ)
  ⟨(List.range (targetWidth * targetHeight * 4)).map fun i =>
      let p := i / 4
      let x := p % targetWidth
      let y := p / targetWidth
      let sourceX := (⌊(x : ℚ) * scaleX⌋).toNat
      let sourceY := (⌊(y : ℚ) * scaleY⌋).toNat
      imageData.data.getD ((sourceY * imageData.width + sourceX) * 4 + i % 4) 0,
   targetWidth, targetHeight⟩

/-- `calculateDimensions`: width is passed through; height is
`floor(targetWidth * 0.5)` without aspect-ratio preservation and
`floor((targetWidth / (originalWidth / originalHeight)) * charAspectRatio)`
with it. -/
def calculateDimensions (originalWidth originalHeight : ℚ) (targetWidth : ℕ)
    (maintainAspectRatio : Bool) (charAspectRatio : ℚ) : ℕ × ℤ :=
  if !maintainAspectRatio then (targetWidth, ⌊(targetWidth : ℚ) * (1/2)⌋)
  else
    let imageAspectRatio := originalWidth / originalHeight
    (targetWidth, ⌊((targetWidth : ℚ) / imageAspectRatio) * charAspectRatio⌋)

/-! ## `ascii-converter.ts`: `convertToAscii` -/

/-- The `ConversionOptions` interface.  `height` is the optional explicit
row count; `colorScheme`, `useColors` and `colorPalette` are optional. -/
structure ConversionOptionsC where
  width : ℕ
  height : Option ℤ
  asciiSet : String
  artStyle : String
  maintainAspectRatio : Bool
  fontSize : ℚ
  contrast : ℚ
  brightness : ℚ
  charAspectRatio : ℚ
  colorScheme : Option String
  useColors : Option Bool
  colorPalette : Option String

/-- A conversion result: a plain string (monochrome) or a cell grid
(colored ANSI). -/
inductive ConversionResultC
  | mono (s : String)
  | colored (grid : List (List AnsiPixelC))
deriving DecidableEq

/-- JS string concatenation of a possibly-`undefined` character. -/
def optStr : Option Char → String
  | some c => String.singleton c
  | none => "undefined"

/-- `convertToAscii`.  `none` models a thrown `TypeError`: when the ramp key
is unknown, `ASCII_SETS[asciiSet]` is `undefined` and the first call of
`brightnessToAscii` (one per pixel, in either path) throws on
`asciiSet.length`; with an empty pixel grid no call happens and the loops
produce empty output.  A negative computed height (possible only for
negative aspect ratios, outside every claim) is modelled as an empty loop
via `Int.toNat`. -/
def convertToAscii (imageData : ImageDataC) (options : ConversionOptionsC) :
    Option ConversionResultC :=
  let invertBrightness := options.colorScheme = some "black-on-white"
  let dims := calculateDimensions (imageData.width : ℚ) (imageData.height : ℚ)
    options.width options.maintainAspectRatio options.charAspectRatio
  let dimsH : ℕ := dims.2.toNat
  let resizedData := resizeImageData imageData dims.1 dimsH
  match ASCII_SETS options.asciiSet with
  | none =>
      if dims.1 = 0 ∨ dimsH = 0 then
        some (if options.artStyle = "ansi" ∧ options.useColors = some true
              then .colored (List.replicate dimsH [])
              else .mono (String.join (List.replicate dimsH "\n")))
      else none
  | some asciiChars =>
      if options.artStyle = "ansi" ∧ options.useColors = some true then
        some (.colored ((List.range dimsH).map fun y =>
          (List.range dims.1).map fun x =>
            let index := (y * dims.1 + x) * 4
            let r : ℚ := (resizedData.data.getD index 0 : ℚ)
            let g : ℚ := (resizedData.data.getD (index + 1) 0 : ℚ)
            let b : ℚ := (resizedData.data.getD (index + 2) 0 : ℚ)
            let avgBrightness := getPixelBrightness r g b
            let adjustedBrightness :=
              adjustBrightness avgBrightness options.contrast options.brightness
            let factor := brightnessFactor adjustedBrightness avgBrightness
            rgbToAnsiPixelJS (rescaleChannel r factor) (rescaleChannel g factor)
              (rescaleChannel b factor) asciiChars
              (options.colorPalette.getD "ansi-16") invertBrightness))
      else
        some (.mono (String.join ((List.range dimsH).map fun y =>
          String.join ((List.range dims.1).map fun x =>
            let index := (y * dims.1 + x) * 4
            let r : ℚ := (resizedData.data.getD index 0 : ℚ)
            let g : ℚ := (resizedData.data.getD (index + 1) 0 : ℚ)
            let b : ℚ := (resizedData.data.getD (index + 2) 0 : ℚ)
            let pixelBrightness := getPixelBrightness r g b
            let adjusted :=
              adjustBrightness pixelBrightness options.contrast options.brightness
            optStr (brightnessToAscii adjusted asciiChars invertBrightness)) ++ "\n")))

/-! ## Helper lemmas -/

/-- Evaluation of the clamped-write value produced by the Floyd-Steinberg
`(0, 0)` tap on a mid-gray channel at full strength. -/
theorem toUint8Clamp_199 : toUint8Clamp ((3191 : ℚ)/16) = 199 := by
  have hf : ⌊(3191 : ℚ)/16⌋ = 199 := by
    rw [Int.floor_eq_iff]
    constructor <;> norm_num
  rw [toUint8Clamp]
  rw [if_neg (by norm_num), if_neg (by norm_num), if_pos (by rw [hf]; norm_num), hf]
  rfl

/-- The first component of `calculateDimensions` is always the target
width. -/
theorem calculateDimensions_fst (ow oh : ℚ) (tw : ℕ) (m : Bool) (car : ℚ) :
    (calculateDimensions ow oh tw m car).1 = tw := by
  cases m <;> simp [calculateDimensions]

/-! ## Claim theorems -/

/-- C1: on the Floyd-Steinberg kernels (plain and serpentine) the claim that
every processed channel ends up quantized to 0 or 255, with the scaled
error going only to not-yet-processed neighbors, fails: the source kernel's
first tap is `[0, 0, 7/16]`, so 7/16 of the error is written back onto the
current, already-quantized pixel.  On a 1x1 mid-gray image at strength 1
every color channel ends at 199 - neither 0 nor 255 (the claimed behavior,
with all true neighbors out of bounds, would leave 255). -/
theorem floydSteinberg_error_hits_current_pixel :
    floydSteinbergDither ⟨[128, 128, 128, 255], 1, 1⟩ 1 = ⟨[199, 199, 199, 255], 1, 1⟩ ∧
    floydSteinbergSerpentineDither ⟨[128, 128, 128, 255], 1, 1⟩ 1 = ⟨[199, 199, 199, 255], 1, 1⟩ ∧
    (199 : ℕ) ≠ 0 ∧ (199 : ℕ) ≠ 255 := by
  have s1 : edChannel 1 floydSteinbergKernel 1 1 false 0 0 [128, 128, 128, 255] 0
      = [199, 128, 128, 255] := by
    simp only [edChannel, diffuseTap, jsWrite, floydSteinbergKernel,
      List.foldl_cons, List.foldl_nil]
    norm_num [toUint8Clamp_199]
  have s2 : edChannel 1 floydSteinbergKernel 1 1 false 0 0 [199, 128, 128, 255] 1
      = [199, 199, 128, 255] := by
    simp only [edChannel, diffuseTap, jsWrite, floydSteinbergKernel,
      List.foldl_cons, List.foldl_nil]
    norm_num [toUint8Clamp_199]
  have s3 : edChannel 1 floydSteinbergKernel 1 1 false 0 0 [199, 199, 128, 255] 2
      = [199, 199, 199, 255] := by
    simp only [edChannel, diffuseTap, jsWrite, floydSteinbergKernel,
      List.foldl_cons, List.foldl_nil]
    norm_num [toUint8Clamp_199]
  have hr3 : List.range 3 = [0, 1, 2] := rfl
  have hpix : edPixel 1 floydSteinbergKernel 1 1 false [128, 128, 128, 255] 0 0
      = [199, 199, 199, 255] := by
    rw [edPixel, hr3, List.foldl_cons, List.foldl_cons, List.foldl_cons, List.foldl_nil,
      s1, s2, s3]
  have hr1 : List.range 1 = [0] := rfl
  refine ⟨?_, ?_, by norm_num, by norm_num⟩ <;>
  · simp only [floydSteinbergDither, floydSteinbergSerpentineDither, errorDiffusionDither,
      hr1, List.foldl_cons, List.foldl_nil, edRow]
    simp
    rw [hpix]

/-- C2: `applyDithering` with algorithm `none` (any strength) or strength 0
(any algorithm) returns the input buffer unchanged. -/
theorem applyDithering_identity (imageData : ImageDataC) (s : ℚ) (a : String)
    (rand1 rand2 : ℕ → ℚ) :
    applyDithering imageData ⟨"none", s⟩ rand1 = imageData ∧
    applyDithering imageData ⟨a, 0⟩ rand2 = imageData := by
  constructor <;> simp [applyDithering]

/-- C3 counterexample: an algorithm name outside the known set is not an
error; `applyDithering` silently returns the input, i.e. behaves exactly
like algorithm `none`, at strength 1 on a concrete 1x1 buffer. -/
theorem applyDithering_unknown_silent_fallback :
    applyDithering ⟨[10, 20, 30, 255], 1, 1⟩ ⟨"no-such-algorithm", 1⟩ (fun _ => 0) =
      ⟨[10, 20, 30, 255], 1, 1⟩ ∧
    applyDithering ⟨[10, 20, 30, 255], 1, 1⟩ ⟨"no-such-algorithm", 1⟩ (fun _ => 0) =
      applyDithering ⟨[10, 20, 30, 255], 1, 1⟩ ⟨"none", 1⟩ (fun _ => 0) := by
  constructor <;> simp [applyDithering]

/-- C3 amended: an unknown character-ramp key does make the conversion
throw (as soon as the pixel grid is nonempty), but an unknown dithering
algorithm is silently treated as `none`: the `default` branch of
`applyDithering` returns the input unchanged. -/
theorem unknown_options_behavior (imageData : ImageDataC)
    (options : ConversionOptionsC) (s : ℚ) (a : String) (rand : ℕ → ℚ)
    (ha : a ∉ knownAlgorithms)
    (hk : ASCII_SETS options.asciiSet = none)
    (hw : options.width ≠ 0)
    (hh : (calculateDimensions (imageData.width : ℚ) (imageData.height : ℚ)
        options.width options.maintainAspectRatio options.charAspectRatio).2.toNat ≠ 0) :
    applyDithering imageData ⟨a, s⟩ rand = imageData ∧
    convertToAscii imageData options = none := by
  simp only [knownAlgorithms, List.mem_cons, List.not_mem_nil, or_false] at ha
  push_neg at ha
  obtain ⟨h1, h2, h3, h4, h5, h6, h7, h8, h9, h10, h11, h12, h13, h14⟩ := ha
  constructor
  · simp [applyDithering, h1, h2, h3, h4, h5, h6, h7, h8, h9, h10, h11, h12, h13, h14]
  · rw [convertToAscii]
    rw [hk]
    rw [calculateDimensions_fst]
    simp [hw, hh]

/-- C6: `calculateDimensions` passes the width through and computes the
height as `floor(targetWidth * 0.5)` without aspect-ratio preservation and
`floor((targetWidth / (originalWidth / originalHeight)) * charAspectRatio)`
with it; in particular `calculateDimensions(200, 100, 80, true, 0.5)` gives
height 20. -/
theorem calculateDimensions_spec :
    (∀ (ow oh : ℚ) (tw : ℕ) (car : ℚ),
        calculateDimensions ow oh tw false car = (tw, ⌊(tw : ℚ) * (1/2)⌋)) ∧
    (∀ (ow oh : ℚ) (tw : ℕ) (car : ℚ),
        calculateDimensions ow oh tw true car = (tw, ⌊((tw : ℚ) / (ow / oh)) * car⌋)) ∧
    calculateDimensions 200 100 80 true (1/2) = (80, 20) := by
  refine ⟨fun ow oh tw car => by simp [calculateDimensions],
          fun ow oh tw car => by simp [calculateDimensions], ?_⟩
  simp only [calculateDimensions, Bool.not_true, Bool.false_eq_true, if_false]
  norm_num

/-- C8 counterexample: a pixel of original luminance 0 with brightness
setting +50 (contrast 1) gets brightness factor `+Infinity`, not 1, and a
zero channel rescales to `NaN` rather than passing through unchanged: the
`|| 1` guard only catches the `0 / 0 = NaN` case, not `x / 0 = Infinity`. -/
theorem brightnessFactor_not_one_counterexample :
    brightnessFactor (adjustBrightness (getPixelBrightness 0 0 0) 1 50)
        (getPixelBrightness 0 0 0) = .inf ∧
    BrightnessFactor.inf ≠ BrightnessFactor.fin 1 ∧
    rescaleChannel 0 BrightnessFactor.inf = .nan := by
  have hb : getPixelBrightness 0 0 0 = 0 := by
    rw [getPixelBrightness,
      show (299/1000) * (0:ℚ) + (587/1000) * 0 + (114/1000) * 0 = 0 by norm_num,
      round_zero]
    norm_num
  have ha : adjustBrightness 0 1 50 = 50 := by
    rw [adjustBrightness]
    rw [show ((0 : ℚ) - 128) * 1 + 128 + 50 = 50 by norm_num]
    rw [min_eq_right (by norm_num), max_eq_right (by norm_num)]
  rw [hb, ha]
  refine ⟨?_, by simp, by simp [rescaleChannel]⟩
  rw [brightnessFactor]
  norm_num

/-- C8 amended: for a pixel of original luminance 0, the brightness ratio is
1 (and the channels pass through the rescale unchanged) exactly when the
adjusted luminance is also 0; when the adjusted luminance is nonzero the
ratio is `+Infinity`.  In both cases the computation is total (never
raises). -/
theorem brightnessFactor_guard_spec (contrast brightness ch : ℚ)
    (hch0 : 0 ≤ ch) (hch255 : ch ≤ 255) :
    (adjustBrightness 0 contrast brightness = 0 →
      brightnessFactor (adjustBrightness 0 contrast brightness) 0 = .fin 1 ∧
      rescaleChannel ch (brightnessFactor (adjustBrightness 0 contrast brightness) 0) = .val ch) ∧
    (adjustBrightness 0 contrast brightness ≠ 0 →
      brightnessFactor (adjustBrightness 0 contrast brightness) 0 = .inf) := by
  constructor
  · intro h0
    have hf : brightnessFactor (adjustBrightness 0 contrast brightness) 0 = .fin 1 := by
      rw [h0, brightnessFactor]
      norm_num
    refine ⟨hf, ?_⟩
    rw [hf, rescaleChannel, mul_one, min_eq_right hch255, max_eq_right hch0]
  · intro hne
    rw [brightnessFactor, if_pos rfl, if_neg hne]

/-- C8 amended, witness: neutral contrast and brightness leave a luminance-0
pixel's adjusted luminance at 0, so the factor is 1 and channel value 7
passes through. -/
theorem brightnessFactor_guard_spec_witness :
    brightnessFactor (adjustBrightness 0 1 0) 0 = .fin 1 ∧
    rescaleChannel 7 (brightnessFactor (adjustBrightness 0 1 0) 0) = .val 7 :=
  (brightnessFactor_guard_spec 1 0 7 (by norm_num) (by norm_num)).1 (by
    rw [adjustBrightness]
    rw [show ((0 : ℚ) - 128) * 1 + 128 + 0 = 0 by norm_num]
    rw [min_eq_right (by norm_num), max_eq_right (by norm_num)])

/-- C9: `convertToAscii` never reads the optional `height` field of its
options: two option values differing only in `height` produce identical
output on every image. -/
theorem convertToAscii_ignores_height (imageData : ImageDataC)
    (options : ConversionOptionsC) (h1 h2 : Option ℤ) :
    convertToAscii imageData { options with height := h1 } =
    convertToAscii imageData { options with height := h2 } := by
  cases options
  rfl

/-- C10: `brightnessToAscii` clamps any real brightness into `[0,255]`
(inverting after the clamp when requested), computes the ramp index
`floor((normalized / 255) * (rampLength - 1))`, and for every ramp of
length at least 1 that index lies in `[0, rampLength - 1]`, so the function
always returns a character of the ramp and never indexes out of bounds. -/
theorem brightnessToAscii_in_range (brightness : ℚ) (s : String) (inv : Bool)
    (h : 1 ≤ s.length) :
    0 ≤ brightnessIndex
        (if inv then 255 - max 0 (min 255 brightness) else max 0 (min 255 brightness))
        s.length ∧
    (brightnessIndex
        (if inv then 255 - max 0 (min 255 brightness) else max 0 (min 255 brightness))
        s.length).toNat ≤ s.length - 1 ∧
    brightnessToAscii brightness s inv =
      s.data.get? (brightnessIndex
        (if inv then 255 - max 0 (min 255 brightness) else max 0 (min 255 brightness))
        s.length).toNat ∧
    ∃ c, brightnessToAscii brightness s inv = some c ∧ c ∈ s.data := by
  set n : ℚ :=
    if inv then 255 - max 0 (min 255 brightness) else max 0 (min 255 brightness) with hn
  have hc0 : (0 : ℚ) ≤ max 0 (min 255 brightness) := le_max_left _ _
  have hc255 : max (0 : ℚ) (min 255 brightness) ≤ 255 :=
    max_le (by norm_num) (min_le_left _ _)
  have hn0 : 0 ≤ n := by rw [hn]; split <;> linarith
  have hn255 : n ≤ 255 := by rw [hn]; split <;> linarith
  have hL : (1 : ℚ) ≤ (s.length : ℚ) := by exact_mod_cast h
  have hm0 : 0 ≤ n / 255 * ((s.length : ℚ) - 1) :=
    mul_nonneg (div_nonneg hn0 (by norm_num)) (by linarith)
  have hm1 : n / 255 * ((s.length : ℚ) - 1) ≤ (s.length : ℚ) - 1 := by
    have hd : n / 255 ≤ 1 := (div_le_one (by norm_num)).mpr hn255
    nlinarith
  have hidx0 : 0 ≤ brightnessIndex n s.length := Int.floor_nonneg.mpr hm0
  have hidxU : brightnessIndex n s.length ≤ (s.length : ℤ) - 1 := by
    have h3 := Int.floor_le_floor (α := ℚ) hm1
    have h4 : ⌊(s.length : ℚ) - 1⌋ = (s.length : ℤ) - 1 := by
      rw [show ((s.length : ℚ) - 1) = (((s.length : ℤ) - 1 : ℤ) : ℚ) by push_cast; ring,
        Int.floor_intCast]
    rw [h4] at h3
    exact h3
  have hlt : (brightnessIndex n s.length).toNat < s.length := by omega
  have heq : brightnessToAscii brightness s inv =
      s.data.get? (brightnessIndex n s.length).toNat := by
    simp only [brightnessToAscii]
    rw [← hn, stringAt, if_neg (not_lt.mpr hidx0)]
  refine ⟨hidx0, by omega, heq, ?_⟩
  have hsl : s.data.length = s.length := rfl
  rw [heq, List.get?_eq_get (by rw [hsl]; exact hlt)]
  exact ⟨_, rfl, List.get_mem _ _ _⟩

/-- C10 witness: an out-of-range brightness (999) on the two-character ramp
"ab", with inversion, still yields a character of the ramp. -/
theorem brightnessToAscii_in_range_witness :
    ∃ c, brightnessToAscii 999 "ab" true = some c ∧ c ∈ ("ab" : String).data :=
  (brightnessToAscii_in_range 999 "ab" true (by decide)).2.2.2

/-- Reading an index below `n` from `(List.range n).map f` yields `f i`. -/
theorem getD_map_range (n i : ℕ) (f : ℕ → ℕ) (h : i < n) :
    ((List.range n).map f).getD i 0 = f i := by
  simp [List.getD, List.getElem?_map, List.getElem?_range h]

/-- C5: `resizeImageData` returns exactly the requested dimensions for all
targets; each destination pixel/channel is a copy of the source byte at
`(floor(y * sourceHeight / targetHeight) * sourceWidth
   + floor(x * sourceWidth / targetWidth)) * 4 + c`;
and resizing a well-formed buffer to its own dimensions reproduces it
exactly. -/
theorem resizeImageData_spec (imageData : ImageDataC) :
    (∀ tw th : ℕ, (resizeImageData imageData tw th).width = tw ∧
        (resizeImageData imageData tw th).height = th) ∧
    (∀ tw th x y c : ℕ, x < tw → y < th → c < 4 →
        (resizeImageData imageData tw th).data.getD ((y * tw + x) * 4 + c) 0 =
        imageData.data.getD
          (((⌊((y : ℚ) * (imageData.height : ℚ)) / (th : ℚ)⌋).toNat * imageData.width +
            (⌊((x : ℚ) * (imageData.width : ℚ)) / (tw : ℚ)⌋).toNat) * 4 + c) 0) ∧
    (imageData.data.length = imageData.width * imageData.height * 4 →
        resizeImageData imageData imageData.width imageData.height = imageData) := by
  refine ⟨fun tw th => ⟨rfl, rfl⟩, ?_, ?_⟩
  · intro tw th x y c hx hy hc
    have hp : y * tw + x < tw * th := by
      have h1 : y * tw + x < (y + 1) * tw := by
        rw [Nat.add_mul, Nat.one_mul]
        omega
      have h2 : (y + 1) * tw ≤ th * tw := Nat.mul_le_mul_right tw (by omega)
      calc y * tw + x < (y + 1) * tw := h1
        _ ≤ th * tw := h2
        _ = tw * th := Nat.mul_comm th tw
    have hi : (y * tw + x) * 4 + c < tw * th * 4 := by
      have := hp
      omega
    have h4 : ((y * tw + x) * 4 + c) / 4 = y * tw + x := by omega
    have h5 : ((y * tw + x) * 4 + c) % 4 = c := by omega
    have h6 : (y * tw + x) % tw = x := by
      rw [Nat.mul_comm y tw, Nat.mul_add_mod]
      exact Nat.mod_eq_of_lt hx
    have h7 : (y * tw + x) / tw = y := by
      rw [Nat.mul_comm y tw, Nat.mul_add_div (by omega), Nat.div_eq_of_lt hx]
      omega
    simp only [resizeImageData]
    rw [getD_map_range _ _ _ hi, h4, h5, h6, h7]
    rw [mul_div_assoc, mul_div_assoc]
  · intro hlen
    obtain ⟨data, w, h⟩ := imageData
    simp only at hlen
    simp only [resizeImageData]
    congr 1
    apply List.ext_getElem
    · simpa using hlen.symm
    · intro i h1 h2
      have hiwh : i < w * h * 4 := by simpa using h1
      have hw0 : 0 < w := Nat.pos_of_ne_zero (fun hw => by subst hw; simp at hiwh)
      have hh0 : 0 < h := Nat.pos_of_ne_zero (fun hh => by subst hh; simp at hiwh)
      have hp4 : i / 4 < w * h := by omega
      have hww : ((w : ℚ) / (w : ℚ)) = 1 := div_self (by exact_mod_cast hw0.ne')
      have hhh : ((h : ℚ) / (h : ℚ)) = 1 := div_self (by exact_mod_cast hh0.ne')
      simp only [List.getElem_map, List.getElem_range]
      rw [hww, hhh, mul_one, mul_one, Int.floor_natCast, Int.floor_natCast,
        Int.toNat_natCast, Int.toNat_natCast]
      have hidx : (i / 4 / w * w + i / 4 % w) * 4 + i % 4 = i := by
        have hdm : w * (i / 4 / w) + i / 4 % w = i / 4 := Nat.div_add_mod (i / 4) w
        rw [Nat.mul_comm (i / 4 / w) w, hdm]
        omega
      rw [hidx]
      simp [List.getD, List.getElem?_eq_getElem h2]

/-- C5 witness: a 1x1 well-formed buffer resized to its own dimensions is
reproduced exactly. -/
theorem resizeImageData_spec_witness :
    resizeImageData ⟨[9, 8, 7, 6], 1, 1⟩ 1 1 = ⟨[9, 8, 7, 6], 1, 1⟩ :=
  (resizeImageData_spec ⟨[9, 8, 7, 6], 1, 1⟩).2.2 (by decide)

/-! ## Buffer update lemmas for the ordered-dither fold -/

/-- A `set` at a different index leaves a read unchanged. -/
theorem getD_set_skip (l : List ℕ) (a j v : ℕ) (h : a ≠ j) :
    (l.set a v).getD j 0 = l.getD j 0 := by
  simp [List.getD, List.getElem?_set_ne h]

/-- A `set` at an in-bounds index is read back. -/
theorem getD_set_hit (l : List ℕ) (a v : ℕ) (h : a < l.length) :
    (l.set a v).getD a 0 = v := by
  simp [List.getD, List.getElem?_set_self, h]

/-- A fold whose step preserves length preserves length. -/
theorem foldl_preserve_length {α : Type} (f : List ℕ → α → List ℕ)
    (hf : ∀ b a, (f b a).length = b.length) (xs : List α) (b : List ℕ) :
    (xs.foldl f b).length = b.length := by
  induction xs generalizing b with
  | nil => rfl
  | cons a t ih => rw [List.foldl_cons, ih, hf]

/-- `orderedProcessPixel` preserves the buffer length. -/
theorem opp_length (m : List (List ℕ)) (s : ℚ) (w : ℕ) (buf : List ℕ) (x y : ℕ) :
    (orderedProcessPixel m s w buf x y).length = buf.length := by
  simp only [orderedProcessPixel]
  exact foldl_preserve_length _ (fun b a => by simp) _ _

/-- `orderedProcessPixel` writes only the three channel bytes of its own
pixel. -/
theorem opp_getD_ne (m : List (List ℕ)) (s : ℚ) (w : ℕ) (buf : List ℕ) (x y j : ℕ)
    (h0 : j ≠ (y * w + x) * 4) (h1 : j ≠ (y * w + x) * 4 + 1)
    (h2 : j ≠ (y * w + x) * 4 + 2) :
    (orderedProcessPixel m s w buf x y).getD j 0 = buf.getD j 0 := by
  have hr3 : List.range 3 = [0, 1, 2] := rfl
  simp only [orderedProcessPixel, hr3, List.foldl_cons, List.foldl_nil]
  rw [getD_set_skip _ _ _ _ (by omega), getD_set_skip _ _ _ _ (by omega),
    getD_set_skip _ _ _ _ (by omega)]

/-- `orderedProcessPixel` sets each of its own in-bounds channel bytes to
the thresholded value of the byte it read there. -/
theorem opp_getD_eq (m : List (List ℕ)) (s : ℚ) (w : ℕ) (buf : List ℕ) (x y c : ℕ)
    (hc : c < 3) (hlen : (y * w + x) * 4 + c < buf.length) :
    (orderedProcessPixel m s w buf x y).getD ((y * w + x) * 4 + c) 0 =
      if orderedThreshold m s x y < (buf.getD ((y * w + x) * 4 + c) 0 : ℚ)
      then 255 else 0 := by
  have hr3 : List.range 3 = [0, 1, 2] := rfl
  simp only [orderedProcessPixel, hr3, List.foldl_cons, List.foldl_nil]
  interval_cases c
  · rw [getD_set_skip _ _ _ _ (by omega), getD_set_skip _ _ _ _ (by omega),
      getD_set_hit _ _ _ (by simpa using hlen)]
  · rw [getD_set_skip _ _ _ _ (by omega),
      getD_set_hit _ _ _ (by simpa using hlen),
      getD_set_skip _ _ _ _ (by omega)]
  · rw [getD_set_hit _ _ _ (by simpa using hlen),
      getD_set_skip _ _ _ _ (by omega), getD_set_skip _ _ _ _ (by omega)]

/-- Distinct pixels (both with in-range x) have distinct base offsets. -/
theorem pixel_base_ne {w x x' y y' : ℕ} (hx : x < w) (hx' : x' < w)
    (hne : x ≠ x' ∨ y ≠ y') : y * w + x ≠ y' * w + x' := by
  rcases hne with hne | hne
  · rcases Nat.lt_trichotomy y y' with hlt | rfl | hlt
    · have : (y + 1) * w ≤ y' * w := Nat.mul_le_mul_right w (by omega)
      rw [Nat.add_mul, Nat.one_mul] at this
      omega
    · omega
    · have : (y' + 1) * w ≤ y * w := Nat.mul_le_mul_right w (by omega)
      rw [Nat.add_mul, Nat.one_mul] at this
      omega
  · rcases Nat.lt_trichotomy y y' with hlt | rfl | hlt
    · have : (y + 1) * w ≤ y' * w := Nat.mul_le_mul_right w (by omega)
      rw [Nat.add_mul, Nat.one_mul] at this
      omega
    · omega
    · have : (y' + 1) * w ≤ y * w := Nat.mul_le_mul_right w (by omega)
      rw [Nat.add_mul, Nat.one_mul] at this
      omega

/-- Distinct pixel bases give disjoint channel byte indices. -/
theorem pixel_index_ne (p p' c c' : ℕ) (hc : c < 4) (hc' : c' < 4)
    (hbase : p ≠ p') : p * 4 + c ≠ p' * 4 + c' := by
  omega

/-- Folding a row segment whose pixels all differ from `(x, y)` leaves the
channel bytes of `(x, y)` unchanged. -/
theorem foldRow_getD_ne (m : List (List ℕ)) (s : ℚ) (w : ℕ) (y : ℕ)
    (xs : List ℕ) (buf : List ℕ) (x yt : ℕ) (c : ℕ) (hc : c < 3)
    (hx : x < w) (hxs : ∀ x' ∈ xs, x' < w)
    (hne : ∀ x' ∈ xs, x' ≠ x ∨ y ≠ yt) :
    ((xs.foldl (fun b x' => orderedProcessPixel m s w b x' y) buf)).getD
        ((yt * w + x) * 4 + c) 0 = buf.getD ((yt * w + x) * 4 + c) 0 := by
  induction xs generalizing buf with
  | nil => rfl
  | cons a t ih =>
      rw [List.foldl_cons]
      rw [ih _ (fun u hu => hxs u (List.mem_cons_of_mem a hu))
            (fun u hu => hne u (List.mem_cons_of_mem a hu))]
      have hbase : yt * w + x ≠ y * w + a := by
        refine pixel_base_ne hx (hxs a (List.mem_cons_self a t)) ?_
        rcases hne a (List.mem_cons_self a t) with h | h
        · exact Or.inl (fun he => h (he.symm))
        · exact Or.inr (fun he => h (he.symm))
      exact opp_getD_ne _ _ _ _ _ _ _
        (pixel_index_ne _ _ c 0 (by omega) (by omega) hbase)
        (pixel_index_ne _ _ c 1 (by omega) (by omega) hbase)
        (pixel_index_ne _ _ c 2 (by omega) (by omega) hbase)

/-- Folding whole rows that all differ from the target row leaves the target
pixel's channel bytes unchanged. -/
theorem foldRows_getD_ne (m : List (List ℕ)) (s : ℚ) (w : ℕ)
    (ys : List ℕ) (buf : List ℕ) (x yt c : ℕ) (hc : c < 3) (hx : x < w)
    (hys : ∀ y' ∈ ys, y' ≠ yt) :
    ((ys.foldl (fun b y' =>
        (List.range w).foldl (fun b2 x' => orderedProcessPixel m s w b2 x' y') b) buf)).getD
      ((yt * w + x) * 4 + c) 0 = buf.getD ((yt * w + x) * 4 + c) 0 := by
  induction ys generalizing buf with
  | nil => rfl
  | cons a t ih =>
      rw [List.foldl_cons, ih _ (fun u hu => hys u (List.mem_cons_of_mem a hu))]
      exact foldRow_getD_ne m s w a _ _ x yt c hc hx
        (fun u hu => List.mem_range.mp hu)
        (fun u _ => Or.inr (hys a (List.mem_cons_self a t)))

/-- A row fold preserves the buffer length. -/
theorem foldRow_length (m : List (List ℕ)) (s : ℚ) (w y : ℕ) (xs : List ℕ)
    (buf : List ℕ) :
    ((xs.foldl (fun b x' => orderedProcessPixel m s w b x' y) buf)).length = buf.length :=
  foldl_preserve_length _ (fun b a => opp_length m s w b a y) xs buf

/-- A fold over whole rows preserves the buffer length. -/
theorem foldRows_length (m : List (List ℕ)) (s : ℚ) (w : ℕ) (ys : List ℕ)
    (buf : List ℕ) :
    ((ys.foldl (fun b y' =>
        (List.range w).foldl (fun b2 x' => orderedProcessPixel m s w b2 x' y') b) buf)).length
      = buf.length :=
  foldl_preserve_length _ (fun b a => foldRow_length m s w a _ b) ys buf

/-- The per-pixel closed form of `orderedDither`: each in-range channel byte
is thresholded against the matrix entry for its position, reading only the
pixel's own original value. -/
theorem orderedDither_getD (imageData : ImageDataC) (matrix : List (List ℕ))
    (strength : ℚ) (x y c : ℕ) (hx : x < imageData.width)
    (hy : y < imageData.height) (hc : c < 3)
    (hlen : imageData.data.length = imageData.width * imageData.height * 4) :
    (orderedDither imageData matrix strength).data.getD
        ((y * imageData.width + x) * 4 + c) 0 =
      if orderedThreshold matrix strength x y <
          (imageData.data.getD ((y * imageData.width + x) * 4 + c) 0 : ℚ)
      then 255 else 0 := by
  obtain ⟨data, w, h⟩ := imageData
  simp only at hx hy hlen ⊢
  simp only [orderedDither]
  obtain ⟨S, T, hST⟩ := List.append_of_mem (List.mem_range.mpr hy)
  have hnd : (List.range h).Nodup := List.nodup_range h
  rw [hST, List.nodup_append] at hnd
  obtain ⟨hndS, hndT, hdisj⟩ := hnd
  have hyT : y ∉ T := (List.nodup_cons.mp hndT).1
  have hSlt : ∀ u ∈ S, u < h := fun u hu => by
    have : u ∈ List.range h := by rw [hST]; exact List.mem_append.mpr (Or.inl hu)
    exact List.mem_range.mp this
  have hSne : ∀ u ∈ S, u ≠ y := fun u hu he => by
    subst he
    exact (hdisj hu) (List.mem_cons_self u T)
  have hTne : ∀ u ∈ T, u ≠ y := fun u hu he => by subst he; exact hyT hu
  obtain ⟨A, B, hAB⟩ := List.append_of_mem (List.mem_range.mpr hx)
  have hndw : (List.range w).Nodup := List.nodup_range w
  rw [hAB, List.nodup_append] at hndw
  obtain ⟨hndA, hndB, hdisjw⟩ := hndw
  have hxB : x ∉ B := (List.nodup_cons.mp hndB).1
  have hAne : ∀ u ∈ A, u ≠ x := fun u hu he => by
    subst he
    exact (hdisjw hu) (List.mem_cons_self u B)
  have hBne : ∀ u ∈ B, u ≠ x := fun u hu he => by subst he; exact hxB hu
  have hidx : (y * w + x) * 4 + c < data.length := by
    have hp : y * w + x < w * h := by
      have h1 : y * w + x < (y + 1) * w := by
        rw [Nat.add_mul, Nat.one_mul]
        omega
      have h2 : (y + 1) * w ≤ h * w := Nat.mul_le_mul_right w (by omega)
      calc y * w + x < (y + 1) * w := h1
        _ ≤ h * w := h2
        _ = w * h := Nat.mul_comm h w
    omega
  rw [hST, List.foldl_append, List.foldl_cons]
  rw [foldRows_getD_ne matrix strength w T _ x y c hc hx hTne]
  set base := S.foldl (fun b y' =>
    (List.range w).foldl (fun b2 x' => orderedProcessPixel matrix strength w b2 x' y') b) data
    with hbase
  have hlenbase : base.length = data.length := foldRows_length matrix strength w S data
  rw [hAB, List.foldl_append, List.foldl_cons]
  rw [foldRow_getD_ne matrix strength w y B _ x y c hc hx
      (fun u hu => by
        have hm : u ∈ List.range w := by
          rw [hAB]
          exact List.mem_append.mpr (Or.inr (List.mem_cons_of_mem x hu))
        exact List.mem_range.mp hm)
      (fun u hu => Or.inl (hBne u hu))]
  rw [opp_getD_eq matrix strength w _ x y c hc
      (by rw [foldRow_length, hlenbase]; exact hidx)]
  rw [foldRow_getD_ne matrix strength w y A _ x y c hc hx
      (fun u hu => by
        have hm : u ∈ List.range w := by
          rw [hAB]
          exact List.mem_append.mpr (Or.inl hu)
        exact List.mem_range.mp hm)
      (fun u hu => Or.inl (hAne u hu))]
  rw [hbase]
  rw [foldRows_getD_ne matrix strength w S _ x y c hc hx hSne]

/-- C4: for ordered dithering, each output channel at pixel `(x, y)` is 255
exactly when the old value strictly exceeds
`(matrix[y mod n][x mod n] / (n^2 - 1)) * 255 * strength` (else 0); and the
output channel is a pure function of the pixel's own value, `x mod n`,
`y mod n` and the strength - independent of image size and of every other
pixel. -/
theorem orderedDither_pointwise (imageData : ImageDataC) (matrix : List (List ℕ))
    (strength : ℚ) (x y c : ℕ) (hx : x < imageData.width)
    (hy : y < imageData.height) (hc : c < 3)
    (hlen : imageData.data.length = imageData.width * imageData.height * 4) :
    ((orderedDither imageData matrix strength).data.getD
        ((y * imageData.width + x) * 4 + c) 0 =
      if ((matrix.getD (y % matrix.length) []).getD (x % matrix.length) 0 : ℚ) /
            ((matrix.length * matrix.length - 1 : ℕ) : ℚ) * 255 * strength <
          (imageData.data.getD ((y * imageData.width + x) * 4 + c) 0 : ℚ)
      then 255 else 0) ∧
    (∀ (img2 : ImageDataC) (x2 y2 c2 : ℕ),
      x2 < img2.width → y2 < img2.height → c2 < 3 →
      img2.data.length = img2.width * img2.height * 4 →
      img2.data.getD ((y2 * img2.width + x2) * 4 + c2) 0 =
        imageData.data.getD ((y * imageData.width + x) * 4 + c) 0 →
      x2 % matrix.length = x % matrix.length →
      y2 % matrix.length = y % matrix.length →
      (orderedDither img2 matrix strength).data.getD ((y2 * img2.width + x2) * 4 + c2) 0 =
        (orderedDither imageData matrix strength).data.getD
          ((y * imageData.width + x) * 4 + c) 0) := by
  have hmain := orderedDither_getD imageData matrix strength x y c hx hy hc hlen
  constructor
  · rw [hmain]
    simp only [orderedThreshold]
  · intro img2 x2 y2 c2 hx2 hy2 hc2 hlen2 hpix hmx hmy
    have h2 := orderedDither_getD img2 matrix strength x2 y2 c2 hx2 hy2 hc2 hlen2
    rw [h2, hmain, hpix]
    simp only [orderedThreshold, hmx, hmy]

/-- C4 witness: on a concrete 1x1 image with the 2x2 matrix at strength 1,
the red channel follows the claimed threshold formula. -/
theorem orderedDither_pointwise_witness :
    (orderedDither ⟨[200, 0, 0, 255], 1, 1⟩ ORDERED_2X2 1).data.getD ((0 * 1 + 0) * 4 + 0) 0 =
      if ((ORDERED_2X2.getD (0 % ORDERED_2X2.length) []).getD (0 % ORDERED_2X2.length) 0 : ℚ) /
            ((ORDERED_2X2.length * ORDERED_2X2.length - 1 : ℕ) : ℚ) * 255 * 1 <
          (([200, 0, 0, 255] : List ℕ).getD ((0 * 1 + 0) * 4 + 0) 0 : ℚ)
      then 255 else 0 :=
  (orderedDither_pointwise ⟨[200, 0, 0, 255], 1, 1⟩ ORDERED_2X2 1 0 0 0 (by decide)
    (by decide) (by decide) (by decide)).1

/-- Invariant of `closestLoop` once a best value exists: either no later
entry strictly improves on `m` (the accumulator is returned), or the loop
ends at an entry of minimal distance that strictly beats `m` and every
entry scanned before it (first-wins tie policy). -/
theorem closestLoop_some_spec (r g b : ℚ) (pal : List (ℕ × ℕ × ℕ)) :
    ∀ (i : ℕ) (m : ℚ) (bI : ℕ),
      (closestLoop r g b pal i (some m) bI = (some m, bI) ∧
        ∀ (j : ℕ) (hj : j < pal.length),
          m ≤ colorDistanceSq r g b (pal.get ⟨j, hj⟩)) ∨
      (∃ (t : ℕ) (ht : t < pal.length),
        closestLoop r g b pal i (some m) bI =
          (some (colorDistanceSq r g b (pal.get ⟨t, ht⟩)), i + t) ∧
        colorDistanceSq r g b (pal.get ⟨t, ht⟩) < m ∧
        (∀ (j : ℕ) (hj : j < pal.length),
          colorDistanceSq r g b (pal.get ⟨t, ht⟩) ≤ colorDistanceSq r g b (pal.get ⟨j, hj⟩)) ∧
        (∀ (j : ℕ) (hj : j < pal.length), j < t →
          colorDistanceSq r g b (pal.get ⟨t, ht⟩) < colorDistanceSq r g b (pal.get ⟨j, hj⟩))) := by
  induction pal with
  | nil =>
      intro i m bI
      left
      exact ⟨rfl, fun j hj => absurd hj (by simp)⟩
  | cons p rest ih =>
      intro i m bI
      by_cases hd : colorDistanceSq r g b p < m
      · rcases ih (i + 1) (colorDistanceSq r g b p) i with ⟨heq, hall⟩ | ⟨t, ht, heq, hlt, hall, hbef⟩
        · right
          refine ⟨0, by simp, ?_, ?_, ?_, ?_⟩
          · simp only [closestLoop, if_pos hd]
            rw [heq]
            simp
          · simpa using hd
          · intro j hj
            cases j with
            | zero => simp
            | succ j => simpa using hall j (by simpa using hj)
          · intro j hj hjt
            omega
        · right
          refine ⟨t + 1, by simpa using ht, ?_, ?_, ?_, ?_⟩
          · simp only [closestLoop, if_pos hd]
            rw [heq]
            refine Prod.ext ?_ ?_
            · simp
            · simp
              omega
          · calc colorDistanceSq r g b ((p :: rest).get ⟨t + 1, by simpa using ht⟩)
                = colorDistanceSq r g b (rest.get ⟨t, ht⟩) := by simp
              _ < colorDistanceSq r g b p := hlt
              _ < m := hd
          · intro j hj
            cases j with
            | zero =>
                simp only [List.get_cons_succ, List.get_cons_zero]
                exact le_of_lt hlt
            | succ j =>
                simpa using hall j (by simpa using hj)
          · intro j hj hjt
            cases j with
            | zero =>
                simp only [List.get_cons_succ, List.get_cons_zero]
                exact hlt
            | succ j =>
                simpa using hbef j (by simpa using hj) (by omega)
      · rcases ih (i + 1) m bI with ⟨heq, hall⟩ | ⟨t, ht, heq, hlt, hall, hbef⟩
        · left
          refine ⟨?_, ?_⟩
          · simp only [closestLoop, if_neg hd]
            exact heq
          · intro j hj
            cases j with
            | zero => simpa using not_lt.mp hd
            | succ j => simpa using hall j (by simpa using hj)
        · right
          refine ⟨t + 1, by simpa using ht, ?_, ?_, ?_, ?_⟩
          · simp only [closestLoop, if_neg hd]
            rw [heq]
            refine Prod.ext ?_ ?_
            · simp
            · simp
              omega
          · simpa using hlt
          · intro j hj
            cases j with
            | zero =>
                simp only [List.get_cons_succ, List.get_cons_zero]
                exact le_of_lt (lt_of_lt_of_le hlt (not_lt.mp hd))
            | succ j =>
                simpa using hall j (by simpa using hj)
          · intro j hj hjt
            cases j with
            | zero =>
                simp only [List.get_cons_succ, List.get_cons_zero]
                exact lt_of_lt_of_le hlt (not_lt.mp hd)
            | succ j =>
                simpa using hbef j (by simpa using hj) (by omega)

/-- `getD` agrees with `get` under a bound. -/
theorem getD_eq_get {α : Type} (l : List α) (d : α) (j : ℕ) (hj : j < l.length) :
    l.getD j d = l.get ⟨j, hj⟩ := by
  simp [List.getD, List.getElem?_eq_getElem hj, List.get_eq_getElem]

/-- `findClosestAnsiColor` returns, for a nonempty palette, an in-range
index of minimal squared (hence minimal Euclidean) distance, and every
earlier index has strictly larger distance: ties are won by the lowest
(first-scanned) index. -/
theorem findClosestAnsiColor_spec (r g b : ℚ) (pal : List (ℕ × ℕ × ℕ))
    (hne : pal ≠ []) :
    findClosestAnsiColor r g b pal < pal.length ∧
    (∀ j, j < pal.length →
      colorDistanceSq r g b (pal.getD (findClosestAnsiColor r g b pal) (0, 0, 0)) ≤
        colorDistanceSq r g b (pal.getD j (0, 0, 0))) ∧
    (∀ j, j < findClosestAnsiColor r g b pal →
      colorDistanceSq r g b (pal.getD (findClosestAnsiColor r g b pal) (0, 0, 0)) <
        colorDistanceSq r g b (pal.getD j (0, 0, 0))) := by
  obtain ⟨p, rest, rfl⟩ := List.exists_cons_of_ne_nil hne
  have hstep : findClosestAnsiColor r g b (p :: rest) =
      (closestLoop r g b rest 1 (some (colorDistanceSq r g b p)) 0).2 := rfl
  rcases closestLoop_some_spec r g b rest 1 (colorDistanceSq r g b p) 0 with
    ⟨heq, hall⟩ | ⟨t, ht, heq, hlt, hall, hbef⟩
  · have hk : findClosestAnsiColor r g b (p :: rest) = 0 := by rw [hstep, heq]
    rw [hk]
    refine ⟨by simp, ?_, ?_⟩
    · intro j hj
      cases j with
      | zero => exact le_refl _
      | succ j =>
          have hj' : j < rest.length := by simpa using hj
          have h := hall j hj'
          rw [List.getD_cons_zero, List.getD_cons_succ, getD_eq_get rest (0, 0, 0) j hj']
          exact h
    · intro j hj
      omega
  · have hk : findClosestAnsiColor r g b (p :: rest) = t + 1 := by
      rw [hstep, heq]
      omega
    rw [hk]
    have hgt : (p :: rest).getD (t + 1) (0, 0, 0) = rest.get ⟨t, ht⟩ := by
      rw [List.getD_cons_succ, getD_eq_get rest (0, 0, 0) t ht]
    refine ⟨by simpa using ht, ?_, ?_⟩
    · intro j hj
      cases j with
      | zero =>
          rw [hgt, List.getD_cons_zero]
          exact le_of_lt hlt
      | succ j =>
          have hj' : j < rest.length := by simpa using hj
          rw [hgt, List.getD_cons_succ, getD_eq_get rest (0, 0, 0) j hj']
          exact hall j hj'
    · intro j hj
      cases j with
      | zero =>
          rw [hgt, List.getD_cons_zero]
          exact hlt
      | succ j =>
          have hj' : j < t := by omega
          have hj'' : j < rest.length := by omega
          rw [hgt, List.getD_cons_succ, getD_eq_get rest (0, 0, 0) j hj'']
          exact hbef j hj'' hj'

/-- C7: in the colored path, the selected palette index minimizes Euclidean
RGB distance with ties won by the lowest index; a dark pixel (mean RGB
< 128) yields foreground 0, the matched index as background and glyph space
exactly when the ramp character is space (the dense block otherwise); a
bright pixel yields the ramp glyph with the matched index as foreground and
no background; and on pure red with the 16-color palette the match is the
pure-red entry at index 9 with distance 0. -/
theorem rgbToAnsiPixel_colored_spec (r g b : ℚ) (pal : List (ℕ × ℕ × ℕ))
    (ramp : String) (cp : String) (inv : Bool) (hpal : pal ≠ []) :
    (findClosestAnsiColor r g b pal < pal.length ∧
      (∀ j, j < pal.length →
        colorDistanceSq r g b (pal.getD (findClosestAnsiColor r g b pal) (0, 0, 0)) ≤
          colorDistanceSq r g b (pal.getD j (0, 0, 0))) ∧
      (∀ j, j < findClosestAnsiColor r g b pal →
        colorDistanceSq r g b (pal.getD (findClosestAnsiColor r g b pal) (0, 0, 0)) <
          colorDistanceSq r g b (pal.getD j (0, 0, 0)))) ∧
    ((r + g + b) / 3 < 128 →
      rgbToAnsiPixel r g b ramp true cp inv =
        ⟨if brightnessToAscii (getPixelBrightness r g b) ramp inv = some ' '
            then some ' ' else some '▓',
         some 0,
         some (findClosestAnsiColor r g b
           (if cp = "ansi-16" then ANSI_16_COLORS else generateAnsi256Palette)),
         some (.val r, .val g, .val b)⟩) ∧
    (128 ≤ (r + g + b) / 3 →
      rgbToAnsiPixel r g b ramp true cp inv =
        ⟨brightnessToAscii (getPixelBrightness r g b) ramp inv,
         some (findClosestAnsiColor r g b
           (if cp = "ansi-16" then ANSI_16_COLORS else generateAnsi256Palette)),
         none,
         some (.val r, .val g, .val b)⟩) ∧
    (findClosestAnsiColor 255 0 0 ANSI_16_COLORS = 9 ∧
      ANSI_16_COLORS.getD 9 (0, 0, 0) = (255, 0, 0) ∧
      colorDistanceSq 255 0 0 (255, 0, 0) = 0) := by
  refine ⟨findClosestAnsiColor_spec r g b pal hpal, ?_, ?_, ?_⟩
  · intro hdark
    simp only [rgbToAnsiPixel, Bool.not_true, Bool.false_eq_true, if_false, if_pos hdark]
  · intro hbright
    simp only [rgbToAnsiPixel, Bool.not_true, Bool.false_eq_true, if_false,
      if_neg (not_lt.mpr hbright)]
  · refine ⟨?_, by decide, by norm_num [colorDistanceSq]⟩
    norm_num [findClosestAnsiColor, closestLoop, colorDistanceSq, ANSI_16_COLORS]

/-- C7 witness: the pure-red scenario, instantiating the theorem at
`(255, 0, 0)` with the 16-color palette and the minimal ramp. -/
theorem rgbToAnsiPixel_colored_spec_witness :
    findClosestAnsiColor 255 0 0 ANSI_16_COLORS = 9 ∧
    ANSI_16_COLORS.getD 9 (0, 0, 0) = (255, 0, 0) ∧
    colorDistanceSq 255 0 0 (255, 0, 0) = 0 :=
  (rgbToAnsiPixel_colored_spec 255 0 0 ANSI_16_COLORS " .:-=+*#%@" "ansi-16" false
    (by decide)).2.2.2

/-- C3 amended, witness: a concrete unknown algorithm name is silently
ignored by `applyDithering`, and a concrete unknown ramp key on a 1x1 image
with a 2x1 output grid makes `convertToAscii` throw. -/
theorem unknown_options_behavior_witness :
    applyDithering ⟨[0, 0, 0, 255], 1, 1⟩ ⟨"bogus-alg", 5⟩ (fun _ => 0) =
      ⟨[0, 0, 0, 255], 1, 1⟩ ∧
    convertToAscii ⟨[0, 0, 0, 255], 1, 1⟩
      ⟨2, none, "nope", "ascii", false, 12, 1, 0, 1/2, none, none, none⟩ = none :=
  unknown_options_behavior ⟨[0, 0, 0, 255], 1, 1⟩
    ⟨2, none, "nope", "ascii", false, 12, 1, 0, 1/2, none, none, none⟩ 5 "bogus-alg"
    (fun _ => 0) (by decide) (by decide) (by decide)
    (by norm_num [calculateDimensions, Int.floor_one])
